import Mathlib

/-!
Shallow embedding of the TeamShout game server
(`games/teamshout/team_shout.py` and `server.py`).

Rooms are modelled as a record mirroring the Python room dict; the socket.io
handlers become pure functions `Room → ... → Room × List Event` (or `Option`
of that when the Python code can raise, e.g. the list indexing in
`start_round`).  Timestamps are `Nat`; the event loop's background tasks
(round timer, delayed auto-next, prompt-generation task) are modelled as
separate operations whose bodies are translated from the corresponding
Python closures.
-/

namespace TeamShout

/-! ### Configuration constants (team_shout.py lines 17-23) -/

def DEFAULT_NUM_PROMPTS : Nat := 10

def MAX_ROUNDS : Nat := 15

def ROUND_TIME : Nat := 10

def AUTO_NEXT_DELAY : Nat := 2

/-! ### Data model -/

/-- A prompt record `{"text": ..., "answers": [...]}`. -/
structure Prompt where
  text : String
  answers : List String
deriving Repr, DecidableEq, Inhabited

/-- A player record `{"name": ..., "playerId": ..., "score": ...}`. -/
structure Player where
  name : String
  playerId : String
  score : Nat
deriving Repr, DecidableEq, Inhabited

/-- An entry of `r["answer_order"]` (and the value stored in `r["answers"]`):
`{"playerId": ..., "ts": ..., "isCorrect": ..., "answer": ...}`. -/
structure AnswerEntry where
  playerId : String
  ts : Nat
  isCorrect : Bool
  answer : String
deriving Repr, DecidableEq, Inhabited

/-- The per-room state dict created in `join_room` (team_shout.py lines
240-260).  Python dicts keyed by strings/ints are modelled as association
lists in insertion order, matching dict iteration order. -/
structure Room where
  players : List Player
  playerSockets : List (String × Nat)
  socketToPlayerId : List (Nat × String)
  host : Option String
  currentPrompt : Option Prompt
  prompts : List Prompt
  prompts_ready : Bool
  answers : List (String × AnswerEntry)
  answer_order : List AnswerEntry
  gameEnded : Bool
  gameStarted : Bool
  currentRound : Nat
  roundId : Nat
  roundEnded : Bool
  roundStartTime : Option Nat
  numRounds : Nat
  lastActive : Nat
deriving Repr, DecidableEq, Inhabited

/-- An entry of the `awarded` list built by `apply_scoring_from_order`. -/
structure Award where
  playerId : String
  name : String
  points : Nat
  position : Nat
deriving Repr, DecidableEq, Inhabited

/-- The broadcasts emitted by the handlers (`sio.emit` calls). -/
inductive Event where
  | playerList (players : List Player) (hostPlayerId : Option String)
  | promptsStatus (status : String)
  | newRound (prompt : String) (round : Nat) (timeLimit : Nat)
  | answerReceived (name : String) (answer : String) (isCorrect : Bool)
  | roundEnded (scoreboard : List (String × Nat)) (awarded : List Award)
  | gameOver (players : List Player)
  | gameStart
deriving Repr, DecidableEq

/-- Structured handler return value (`{"success": ..., "error": ...}`). -/
inductive HandlerResult where
  | ok
  | err (msg : String)
deriving Repr, DecidableEq

/-- `True` on events of the form `round-ended`. -/
def Event.isRoundEnded : Event → Bool
  | .roundEnded _ _ => true
  | _ => false

/-! ### Python string primitives

Python's `str.lower` / `str.strip` / `str.split(",")` are modelled on the
character list underlying the string (ASCII lowering, which agrees with
Python on the ASCII data handled by the game). -/

/-- `Char` part of Python `str.lower()` (ASCII range). -/
def lowerChar (c : Char) : Char :=
  if 65 ≤ c.toNat ∧ c.toNat ≤ 90 then Char.ofNat (c.toNat + 32) else c

/-- Python `s.lower()`. -/
def pyLower (s : String) : String := ⟨s.data.map lowerChar⟩

/-- Python whitespace as stripped by `str.strip()`. -/
def isPyWs (c : Char) : Bool :=
  c == ' ' || c == '\t' || c == '\n' || c == '\r' || c == '\x0b' || c == '\x0c'

/-- Python `s.strip()`. -/
def pyStrip (s : String) : String :=
  ⟨((s.data.dropWhile isPyWs).reverse.dropWhile isPyWs).reverse⟩

/-- Helper for `splitComma`: accumulates the current field (reversed). -/
def splitCommaAux : List Char → List Char → List String
  | [], acc => [⟨acc.reverse⟩]
  | c :: cs, acc =>
    if c == ',' then ⟨acc.reverse⟩ :: splitCommaAux cs []
    else splitCommaAux cs (c :: acc)

/-- Python `s.split(",")`. -/
def splitComma (s : String) : List String := splitCommaAux s.data []

/-! ### Scoring engine (`apply_scoring_from_order`, lines 155-167) -/

/-- `player["score"] = player.get("score", 0) + pts` applied to the first
player in the list whose `playerId` matches (Python's
`next((p for p in r["players"] if p["playerId"] == pid), None)`). -/
def updateScore : List Player → String → Nat → List Player
  | [], _, _ => []
  | p :: ps, pid, pts =>
    if p.playerId == pid then { p with score := p.score + pts } :: ps
    else p :: updateScore ps pid pts

/-- Stable insertion into a list sorted by ascending `ts`: the new element is
placed before the first element with a `ts` that is not smaller.  Used to
model Python's stable `list.sort(key=lambda x: x["ts"])`. -/
def insertByTs (e : AnswerEntry) : List AnswerEntry → List AnswerEntry
  | [] => [e]
  | x :: xs => if x.ts < e.ts then x :: insertByTs e xs else e :: x :: xs

/-- Stable sort by ascending `ts`, modelling `order.sort(key=lambda x: x["ts"])`
(Python's sort is stable, so equal timestamps keep submission order). -/
def sortByTs : List AnswerEntry → List AnswerEntry
  | [] => []
  | x :: xs => insertByTs x (sortByTs xs)

/-- `points = [5, 3, 2]`. -/
def points : List Nat := [5, 3, 2]

/-- The loop `for i, item in enumerate(order[:3])` of
`apply_scoring_from_order`: walks the ranked entries together with the
points list, updating the first matching player and collecting the awarded
records (a submitter absent from `players` is skipped but still consumes
its position and points slot, as in the Python loop). -/
def scoreTop : List Player → List AnswerEntry → List Nat → Nat → List Player × List Award
  | ps, [], _, _ => (ps, [])
  | ps, _ :: _, [], _ => (ps, [])
  | ps, e :: es, pts :: rest, pos =>
    match ps.find? (fun p => p.playerId == e.playerId) with
    | some p =>
      let res := scoreTop (updateScore ps e.playerId pts) es rest (pos + 1)
      (res.1, { playerId := e.playerId, name := p.name, points := pts, position := pos } :: res.2)
    | none => scoreTop ps es rest (pos + 1)

/-- The correct entries of `answer_order`
(`[a for a in r.get("answer_order", []) if a.get("isCorrect")]`). -/
def correctEntries (r : Room) : List AnswerEntry :=
  r.answer_order.filter (fun a => a.isCorrect)

/-- `apply_scoring_from_order(r)`: filter the correct entries, sort them by
timestamp, and award 5/3/2 to the first three; returns the mutated room and
the `awarded` list. -/
def apply_scoring_from_order (r : Room) : Room × List Award :=
  let order := sortByTs (correctEntries r)
  let res := scoreTop r.players (order.take 3) points 1
  ({ r with players := res.1 }, res.2)

/-- `scoreboard = [{"name": p["name"], "score": p["score"]} for p in r["players"]]`. -/
def scoreboardOf (ps : List Player) : List (String × Nat) :=
  ps.map (fun p => (p.name, p.score))

/-- Observation: the score of the (first) player with the given id, `none`
when no such player exists. -/
def scoreOf (ps : List Player) (pid : String) : Option Nat :=
  (ps.find? (fun p => p.playerId == pid)).map Player.score

/-- The round bonus a player id earns from a ranked entry list `es` paired
positionally with a points list: the points slot aligned with the first
entry carrying that id, 0 when the id is absent or the points ran out. -/
def bonusAux : List AnswerEntry → List Nat → String → Nat
  | [], _, _ => 0
  | _ :: _, [], _ => 0
  | e :: es, pts :: rest, pid =>
    if e.playerId == pid then pts else bonusAux es rest pid

/-- Invariant: `players` holds no duplicate `playerId` (spec §3). -/
def playersNodup (r : Room) : Prop := (r.players.map Player.playerId).Nodup

/-! ### Round lifecycle (`end_round`, `start_round`, `round_timer`) -/

/-- `end_round` (lines 169-194), synchronous part.  The `delayed_next`
background task it spawns is modelled as the separate operation
`delayed_next` below.  Returns the updated room and the emitted broadcasts. -/
def end_round (r : Room) : Room × List Event :=
  if r.roundEnded then (r, [])
  else
    let r1 : Room := { r with roundEnded := true }
    let res := apply_scoring_from_order r1
    let r2 := res.1
    let evs := [Event.roundEnded (scoreboardOf r2.players) res.2]
    if r2.numRounds ≤ r2.currentRound then
      ({ r2 with gameEnded := true }, evs ++ [Event.gameOver r2.players])
    else
      (r2, evs)

/-- `start_round` (lines 196-214, minus spawning `round_timer`).  Returns
`none` when `r["prompts"][r["currentRound"]]` would raise `IndexError`. -/
def start_round (r : Room) (now : Nat) : Option (Room × List Event) :=
  if r.numRounds ≤ r.currentRound then
    some ({ r with gameEnded := true }, [Event.gameOver r.players])
  else
    match r.prompts[r.currentRound]? with
    | none => none
    | some prompt =>
      let r1 : Room := { r with
        answers := [], answer_order := [], roundEnded := false,
        roundId := r.roundId + 1, currentPrompt := some prompt,
        currentRound := r.currentRound + 1, roundStartTime := some now }
      some (r1, [Event.newRound prompt.text r1.currentRound ROUND_TIME])

/-- The body of the `round_timer` closure after its sleep (lines 216-224):
`local_round_id` is the `roundId` captured when the timer was scheduled.  The
round is ended only when that id still matches the room's current `roundId`
and the round has not already ended. -/
def round_timer (r : Room) (local_round_id : Nat) : Room × List Event :=
  if r.roundId == local_round_id && !r.roundEnded then end_round r
  else (r, [])

/-- The body of the `delayed_next` closure after its sleep (lines 187-192). -/
def delayed_next (r : Room) (now : Nat) : Option (Room × List Event) :=
  if r.gameEnded then some (r, []) else start_round r now

/-! ### Answer submission (`submit_answer`, lines 387-411) -/

/-- `submit_answer` handler.  `rawInput` is the client-sent answer; the code
strips it, lower-cases it for comparison, and records the stripped raw
answer.  When everybody in `r["players"]` has an entry in `r["answers"]`,
the round is ended immediately. -/
def submit_answer (r : Room) (player_id rawInput : String) (now : Nat) : Room × List Event :=
  let raw := pyStrip rawInput
  let answer := pyLower raw
  if r.currentPrompt.isNone || r.roundEnded then (r, [])
  else if (r.answers.lookup player_id).isSome then (r, [])
  else
    match r.players.find? (fun p => p.playerId == player_id) with
    | none => (r, [])
    | some player =>
      match r.currentPrompt with
      | none => (r, [])
      | some cp =>
        let is_correct := (cp.answers.map pyLower).contains answer
        let entry : AnswerEntry :=
          { playerId := player_id, ts := now, isCorrect := is_correct, answer := raw }
        let r1 : Room := { r with
          answers := r.answers ++ [(player_id, entry)],
          answer_order := r.answer_order ++ [entry] }
        let evs := [Event.answerReceived player.name raw is_correct]
        if r1.answers.length == r1.players.length && !r1.roundEnded then
          let res := end_round r1
          (res.1, evs ++ res.2)
        else
          (r1, evs)

/-! ### Room creation and joining (`join_room`, lines 231-297) -/

/-- The fresh room dict created on first join (lines 240-260). -/
def newRoom (now : Nat) : Room where
  players := []
  playerSockets := []
  socketToPlayerId := []
  host := none
  currentPrompt := none
  prompts := []
  prompts_ready := false
  answers := []
  answer_order := []
  gameEnded := false
  gameStarted := false
  currentRound := 0
  roundId := 0
  roundEnded := false
  roundStartTime := none
  numRounds := DEFAULT_NUM_PROMPTS
  lastActive := now

/-- Python dict assignment `d[k] = v` on an association list: replaces the
value in place when the key is present (keeping its position, as a dict
does), appends otherwise. -/
def setKV {κ ν : Type} [BEq κ] : List (κ × ν) → κ → ν → List (κ × ν)
  | [], k, v => [(k, v)]
  | (k', v') :: rest, k, v =>
    if k' == k then (k, v) :: rest else (k', v') :: setKV rest k v

/-- `join_room` (lines 231-297) on an existing (or just created) room, after
the `shout-` code validation.  `now` models `time.time()`.  Broadcasts
(player-list to the room; prompts-status / new-round catch-ups to the
joining socket) are returned in emission order. -/
def join_room (r : Room) (name player_id : String) (sid : Nat) (is_host_flag : Bool)
    (now : Nat) : Room × List Event :=
  let r0 : Room := { r with lastActive := now }
  let prevOpt := r0.players.find? (fun p => p.playerId == player_id)
  let prev_score := match prevOpt with
    | some p => p.score
    | none => 0
  let players0 := match prevOpt with
    | some _ => r0.players.eraseP (fun p => p.playerId == player_id)
    | none => r0.players
  let sockets0 := match prevOpt with
    | some _ => r0.playerSockets.eraseP (fun kv => kv.1 == player_id)
    | none => r0.playerSockets
  let s2p0 := match prevOpt with
    | some _ => r0.socketToPlayerId.filter (fun kv => kv.2 != player_id)
    | none => r0.socketToPlayerId
  let players1 := players0 ++ [{ name := name, playerId := player_id, score := prev_score }]
  let sockets1 := setKV sockets0 player_id sid
  let s2p1 := setKV s2p0 sid player_id
  let host1 := match r0.host with
    | none => some player_id
    | some h =>
      if (sockets1.lookup h).isSome then some h
      else if is_host_flag then some player_id else some h
  let r1 : Room := { r0 with
    players := players1, playerSockets := sockets1,
    socketToPlayerId := s2p1, host := host1 }
  let remaining := match r1.roundStartTime with
    | some t0 => ROUND_TIME - (now - t0)
    | none => ROUND_TIME
  let evs :=
    [Event.playerList players1 host1]
    ++ (if r1.prompts_ready then [Event.promptsStatus "ready"] else [])
    ++ (match r1.currentPrompt with
        | some cp =>
          if !r1.roundEnded then [Event.newRound cp.text r1.currentRound remaining]
          else []
        | none => [])
  (r1, evs)

/-! ### Prompt generation request (`generate_prompts_handler`, lines 299-334) -/

/-- `int(data.get("numPrompts") or DEFAULT_NUM_PROMPTS)`: a missing field or
the (falsy) value `0` turn into the default. -/
def requestedNumPrompts (numPrompts : Option Int) : Int :=
  match numPrompts with
  | none => DEFAULT_NUM_PROMPTS
  | some n => if n == 0 then DEFAULT_NUM_PROMPTS else n

/-- Synchronous part of `generate_prompts_handler` (lines 299-334): host
check, the two clamping `if`s, and storing `numRounds`.  The background
generation task is modelled separately (`Op.genPromptsDone`). -/
def generate_prompts_handler (r : Room) (sid : Nat) (numPrompts : Option Int) :
    Room × HandlerResult × List Event :=
  let num0 := requestedNumPrompts numPrompts
  let player_id := r.socketToPlayerId.lookup sid
  if player_id != r.host then (r, .err "Only host can generate prompts", [])
  else
    let num1 := if num0 < 1 then (DEFAULT_NUM_PROMPTS : Int) else num0
    let num2 := if (MAX_ROUNDS : Int) < num1 then (MAX_ROUNDS : Int) else num1
    ({ r with prompts_ready := false, numRounds := num2.toNat },
     .ok, [Event.promptsStatus "generating"])

/-! ### Game start (`start_game`, lines 336-385) -/

/-- `start_game` (lines 336-385).  `gen` is the prompt list produced if the
handler has to invoke the Prompt Source synchronously (both the success and
the exception branch of the Python code install some list and set
`prompts_ready`).  The spawned `start_round` background task is modelled as
a separate operation. -/
def start_game (r : Room) (sid : Nat) (gen : List Prompt) :
    Room × HandlerResult × List Event :=
  let player_id := r.socketToPlayerId.lookup sid
  if player_id != r.host then (r, .err "Only host can start", [])
  else
    let res1 : Room × List Event :=
      if !r.prompts_ready then
        ({ r with numRounds := DEFAULT_NUM_PROMPTS, prompts := gen, prompts_ready := true },
         [Event.promptsStatus "generating", Event.promptsStatus "ready"])
      else (r, [])
    let r1 := res1.1
    let evs1 := res1.2
    if r1.gameStarted then (r1, .err "Game already started", evs1)
    else
      ({ r1 with
          gameStarted := true, answers := [], answer_order := [],
          gameEnded := false, currentRound := 0, roundId := 0,
          roundEnded := false, roundStartTime := none },
       .ok, evs1 ++ [Event.gameStart])

/-! ### Host-forced next round (`next_round`, lines 413-422) -/

/-- `next_round` (lines 413-422): host check, then an unconditional
`start_round`. -/
def next_round (r : Room) (sid : Nat) (now : Nat) : Option (Room × List Event) :=
  let player_id := r.socketToPlayerId.lookup sid
  if player_id != r.host then some (r, [])
  else start_round r now

/-! ### Disconnect (`disconnect`, lines 424-440) -/

/-- Per-room synchronous part of `disconnect` (lines 424-440); the delayed
cleanup task only removes the room from the registry and is outside the
single-room state. -/
def disconnect (r : Room) (sid : Nat) : Room × List Event :=
  match r.socketToPlayerId.lookup sid with
  | none => (r, [])
  | some pid =>
    let sockets1 := r.playerSockets.eraseP (fun kv => kv.1 == pid)
    let s2p1 := r.socketToPlayerId.eraseP (fun kv => kv.1 == sid)
    let host1 :=
      if r.host == some pid then
        (r.players.find? (fun p => (sockets1.lookup p.playerId).isSome)).map
          (fun p => p.playerId)
      else r.host
    ({ r with playerSockets := sockets1, socketToPlayerId := s2p1, host := host1 },
     [Event.playerList r.players host1])

/-! ### Prompt generation (`generate_room_prompts`, lines 34-149)

The Cohere call, the text extraction and `extract_json_from_text` are the
external Prompt Source; the embedding starts from its outcome: either
failure (API error, unparseable text, or JSON without a `prompts` list —
all of which leave `prompts = []` before the padding stage) or a parsed
`candidate_list` whose entries are modelled by `Candidate`. -/

/-- The `answers` field of a candidate entry: a JSON list (entries
stringified), a string (split on commas by the code), or any other value
(fails the `isinstance(answers, list)` check). -/
inductive AnswersField where
  | listField (l : List String)
  | strField (s : String)
  | badField
deriving Repr, DecidableEq

/-- One entry of the parsed `candidate_list`.  `isDict := false` models a
non-dict entry (skipped by `isinstance(p, dict)`); a missing or null
`text` is the empty string, a missing or falsy `answers` is
`listField []` (the `p.get("answers") or []` default). -/
structure Candidate where
  isDict : Bool
  text : String
  answers : AnswersField
deriving Repr, DecidableEq

/-- The candidate-normalisation loop (lines 105-117): strip the text,
comma-split string answers, drop entries with empty text, non-list answers
or no non-blank answers, and lower-case/strip each answer. -/
def parseCandidate (p : Candidate) : Option Prompt :=
  if !p.isDict then none
  else
    let text := pyStrip p.text
    let answersOpt : Option (List String) :=
      match p.answers with
      | .listField l => some l
      | .strField s => some (((splitComma s).map pyStrip).filter (fun a => a != ""))
      | .badField => none
    if text == "" then none
    else
      match answersOpt with
      | none => none
      | some l =>
        let norm := (l.filter (fun a => pyStrip a != "")).map (fun a => pyLower (pyStrip a))
        if norm.isEmpty then none else some { text := text, answers := norm }

/-- Outcome of the Prompt Source (model call plus JSON extraction). -/
inductive SourceOutcome where
  | failure
  | parsed (candidates : List Candidate)
deriving Repr, DecidableEq

/-- The `prompts` list accumulated before the fallback stage (empty on
failure, the accepted candidates otherwise). -/
def sourcePrompts : SourceOutcome → List Prompt
  | .failure => []
  | .parsed cs => cs.filterMap parseCandidate

/-- `fallback_pool` (lines 125-131). -/
def fallback_pool : List Prompt :=
  [⟨"Name a color in the rainbow",
    ["red", "orange", "yellow", "green", "blue", "indigo", "violet"]⟩,
   ⟨"What is the largest gland in the human body?", ["liver"]⟩,
   ⟨"Name a fruit", ["apple", "banana", "orange", "grape", "mango"]⟩,
   ⟨"Name any planet in our solar system",
    ["mercury", "venus", "earth", "mars", "jupiter", "saturn", "uranus", "neptune"]⟩,
   ⟨"Name an animal that can fly", ["eagle", "sparrow", "bat", "butterfly"]⟩]

/-- The padding `while` loop (lines 133-139), with explicit fuel: one fuel
unit per loop iteration.  `none` means the loop was still running when the
fuel ran out — the loop body itself makes no progress on an iteration whose
candidate text is already in `existing`, only `i` changes. -/
def padLoop (num : Nat) : Nat → List Prompt → List String → Nat → Option (List Prompt)
  | 0, prompts, _, _ =>
    if num ≤ prompts.length then some prompts else none
  | fuel + 1, prompts, existing, i =>
    if num ≤ prompts.length then some prompts
    else
      let cand := fallback_pool.getD (i % fallback_pool.length) default
      if existing.contains (pyLower cand.text) then
        padLoop num fuel prompts existing (i + 1)
      else
        padLoop num fuel (prompts ++ [cand]) (pyLower cand.text :: existing) (i + 1)

/-- The final normalisation loop (lines 141-146). -/
def finalizePrompt (p : Prompt) : Prompt :=
  let answers := (p.answers.filter (fun a => a != "" && pyStrip a != "")).map pyLower
  if answers.isEmpty then { text := pyStrip p.text, answers := ["other"] }
  else { text := pyStrip p.text, answers := answers }

/-- `generate_room_prompts` from the Prompt Source outcome on: parse the
candidates, pad from the fallback pool while fewer than `num_prompts`
prompts exist (dedup by lower-cased text), then truncate and normalise.
`none` models the padding loop not terminating within `fuel` iterations. -/
def generate_room_prompts (outcome : SourceOutcome) (num_prompts : Nat) (fuel : Nat) :
    Option (List Prompt) :=
  let prompts := sourcePrompts outcome
  let padded :=
    if prompts.length < num_prompts then
      padLoop num_prompts fuel prompts (prompts.map (fun p => pyLower p.text)) 0
    else some prompts
  match padded with
  | none => none
  | some ps => some ((ps.take num_prompts).map finalizePrompt)

/-! ### Operations and traces

Each socket event / background-task resumption that can touch a room is one
operation; `applyOp` dispatches to the handler bodies above.  `none` models
a Python exception (the `IndexError` reachable in `start_round`). -/

inductive Op where
  | join (name player_id : String) (sid : Nat) (is_host_flag : Bool) (now : Nat)
  | genPromptsReq (sid : Nat) (numPrompts : Option Int)
  | genPromptsDone (ps : List Prompt)
  | startGame (sid : Nat) (gen : List Prompt)
  | startRoundTask (now : Nat)
  | submitAnswer (player_id answer : String) (now : Nat)
  | timerFire (localRoundId : Nat)
  | delayedNext (now : Nat)
  | nextRound (sid : Nat) (now : Nat)
  | disconnectOp (sid : Nat)
deriving Repr, DecidableEq

/-- One room-mutating step.  `Op.genPromptsDone` is the tail of the
`generate-prompts` background task (lines 319-331): both its success and
exception branches store a prompt list and set `prompts_ready`. -/
def applyOp (r : Room) : Op → Option (Room × List Event)
  | .join name pid sid ih now => some (join_room r name pid sid ih now)
  | .genPromptsReq sid n =>
    let res := generate_prompts_handler r sid n
    some (res.1, res.2.2)
  | .genPromptsDone ps =>
    some ({ r with prompts := ps, prompts_ready := true }, [Event.promptsStatus "ready"])
  | .startGame sid gen =>
    let res := start_game r sid gen
    some (res.1, res.2.2)
  | .startRoundTask now => start_round r now
  | .submitAnswer pid ans now => some (submit_answer r pid ans now)
  | .timerFire lid => some (round_timer r lid)
  | .delayedNext now => delayed_next r now
  | .nextRound sid now => next_round r sid now
  | .disconnectOp sid => some (disconnect r sid)

/-- Run a trace of operations, stopping on an exception. -/
def applyOps (r : Room) : List Op → Option Room
  | [] => some r
  | op :: ops =>
    match applyOp r op with
    | none => none
    | some res => applyOps res.1 ops

end TeamShout

namespace TeamShout

/-- A two-player room in the middle of round 1, used by concrete examples. -/
def roomAB : Room where
  players := [⟨"A", "A", 0⟩, ⟨"B", "B", 0⟩]
  playerSockets := [("A", 1), ("B", 2)]
  socketToPlayerId := [(1, "A"), (2, "B")]
  host := some "A"
  currentPrompt := some ⟨"Name a color", ["red"]⟩
  prompts := [⟨"Name a color", ["red"]⟩, ⟨"Name a fruit", ["apple"]⟩]
  prompts_ready := true
  answers := []
  answer_order := []
  gameEnded := false
  gameStarted := true
  currentRound := 1
  roundId := 1
  roundEnded := false
  roundStartTime := some 0
  numRounds := 2
  lastActive := 0

/-- `roomAB` after player `A` has already answered in the current round. -/
def roomABAnswered : Room :=
  { roomAB with
    answers := [("A", ⟨"A", 1, true, "Red"⟩)],
    answer_order := [⟨"A", 1, true, "Red"⟩] }

/-- Like `roomAB`, but player `B` has disconnected mid-round: `B` is still
in `players`, but holds no live socket binding. -/
def roomABDisconnected : Room :=
  { roomAB with playerSockets := [("A", 1)], socketToPlayerId := [(1, "A")] }

/-- A four-player room whose round collected a mix of correct and incorrect
answers, including a timestamp tie between `W` and `X` (submission order
`W` before `X`). -/
def roomScoring : Room :=
  { roomAB with
    players := [⟨"W", "W", 1⟩, ⟨"X", "X", 2⟩, ⟨"Y", "Y", 3⟩, ⟨"Z", "Z", 4⟩],
    playerSockets := [("W", 1), ("X", 2), ("Y", 3), ("Z", 4)],
    socketToPlayerId := [(1, "W"), (2, "X"), (3, "Y"), (4, "Z")],
    host := some "W",
    answers := [("Z", ⟨"Z", 1, false, "blue"⟩), ("W", ⟨"W", 4, true, "red"⟩),
                ("X", ⟨"X", 4, true, "Red"⟩), ("Y", ⟨"Y", 6, true, "RED"⟩)],
    answer_order := [⟨"Z", 1, false, "blue"⟩, ⟨"W", 4, true, "red"⟩,
                     ⟨"X", 4, true, "Red"⟩, ⟨"Y", 6, true, "RED"⟩] }

/-- Prompt Source outcome returning exactly the five built-in fallback
prompts (as well-formed candidates). -/
def allFallbackOutcome : SourceOutcome :=
  .parsed (fallback_pool.map (fun p => ⟨true, p.text, .listField p.answers⟩))

example : (sortByTs [⟨"b", 2, true, "x"⟩, ⟨"a", 1, true, "y"⟩]).map (fun e => e.playerId)
    = ["a", "b"] := by decide

example :
    let res1 := submit_answer roomAB "A" "Red" 1
    let res2 := submit_answer res1.1 "B" "blue" 2
    (res2.1.players.map (fun p => p.score) = [5, 0]) ∧ res2.1.roundEnded = true := by
  decide

example : generate_room_prompts .failure 4 20
    = some ((fallback_pool.take 4).map finalizePrompt) := by decide

example : generate_room_prompts .failure 10 50 = none := by decide

/-! ## Helper lemmas -/

theorem apply_scoring_projections (r : Room) :
    (apply_scoring_from_order r).1.roundEnded = r.roundEnded ∧
    (apply_scoring_from_order r).1.numRounds = r.numRounds ∧
    (apply_scoring_from_order r).1.currentRound = r.currentRound ∧
    (apply_scoring_from_order r).1.roundId = r.roundId ∧
    (apply_scoring_from_order r).1.answers = r.answers ∧
    (apply_scoring_from_order r).1.answer_order = r.answer_order ∧
    (apply_scoring_from_order r).1.gameEnded = r.gameEnded :=
  ⟨rfl, rfl, rfl, rfl, rfl, rfl, rfl⟩

theorem end_round_of_ended (r : Room) (h : r.roundEnded = true) :
    end_round r = (r, []) := by
  unfold end_round
  simp [h]

theorem round_timer_of_ended (r : Room) (lid : Nat) (h : r.roundEnded = true) :
    round_timer r lid = (r, []) := by
  unfold round_timer
  simp [h, end_round_of_ended]

theorem end_round_sets_roundEnded (r : Room) (h : r.roundEnded = false) :
    (end_round r).1.roundEnded = true := by
  unfold end_round
  simp only [h, Bool.false_eq_true, if_false]
  split <;> rfl

/-! ## C1 — round finalization runs at most once -/

/-- C1: if `roundEnded` is false, ending the round flips `roundEnded` to
true, emits exactly one `round-ended` broadcast, and any second trigger —
a direct `end_round` call (the all-answered path) or the current round's
timer — is a no-op that changes nothing and emits nothing (in particular
scoring is not applied again). -/
theorem end_round_finalizes_once (r : Room) (h : r.roundEnded = false) :
    (end_round r).1.roundEnded = true ∧
    (end_round r).2.countP Event.isRoundEnded = 1 ∧
    end_round (end_round r).1 = ((end_round r).1, []) ∧
    round_timer (end_round r).1 (end_round r).1.roundId = ((end_round r).1, []) := by
  have h1 : (end_round r).1.roundEnded = true := end_round_sets_roundEnded r h
  refine ⟨h1, ?_, end_round_of_ended _ h1, round_timer_of_ended _ _ h1⟩
  unfold end_round
  simp only [h, if_false, Bool.false_eq_true]
  split <;> simp [Event.isRoundEnded, List.countP_cons, List.countP_nil]

/-- Witness for C1 at a concrete two-player room. -/
theorem end_round_finalizes_once_witness :
    (end_round roomAB).1.roundEnded = true ∧
    (end_round roomAB).2.countP Event.isRoundEnded = 1 ∧
    end_round (end_round roomAB).1 = ((end_round roomAB).1, []) ∧
    round_timer (end_round roomAB).1 (end_round roomAB).1.roundId
      = ((end_round roomAB).1, []) :=
  end_round_finalizes_once roomAB (by decide)

/-! ## C2 — stale timers are discarded -/

/-- C2: a round-expiry timer whose captured `roundId` differs from the
room's current `roundId` does nothing when it fires: no state change, no
scoring, no broadcast. -/
theorem stale_timer_is_noop (r : Room) (lid : Nat) (h : lid ≠ r.roundId) :
    round_timer r lid = (r, []) := by
  unfold round_timer
  have hb : (r.roundId == lid) = false := by
    simp [beq_eq_false_iff_ne]
    omega
  simp [hb]

/-- Witness for C2: a timer tagged with `roundId = 5` firing against a room
currently in `roundId = 1`. -/
theorem stale_timer_is_noop_witness : round_timer roomAB 5 = (roomAB, []) :=
  stale_timer_is_noop roomAB 5 (by decide)

/-! ## C8 — repeated submission is a no-op -/

/-- C8: a `submit-answer` from a player who already has an entry in
`answers` this round leaves the room (answers, answerOrder, scores)
untouched and emits no broadcast. -/
theorem resubmit_is_noop (r : Room) (pid rawInput : String) (now : Nat)
    (h : (r.answers.lookup pid).isSome = true) :
    submit_answer r pid rawInput now = (r, []) := by
  unfold submit_answer
  by_cases h1 : (r.currentPrompt.isNone || r.roundEnded) = true
  · simp [h1]
  · simp [h1, h]

/-- Witness for C8: player `A` submits again after already answering. -/
theorem resubmit_is_noop_witness :
    submit_answer roomABAnswered "A" "red" 7 = (roomABAnswered, []) :=
  resubmit_is_noop roomABAnswered "A" "red" 7 (by decide)

/-! ## C10 — start-game on an already started room -/

/-- C10: when the game has already started and the prompts are ready, a
further host `start-game` returns the `Game already started` error, emits
nothing, and leaves the room state (round counters, answers, scores)
completely unchanged. -/
theorem start_game_already_started_noop (r : Room) (sid : Nat) (gen : List Prompt)
    (hhost : r.socketToPlayerId.lookup sid = r.host)
    (hready : r.prompts_ready = true) (hstarted : r.gameStarted = true) :
    start_game r sid gen = (r, .err "Game already started", []) := by
  unfold start_game
  have hb : (r.socketToPlayerId.lookup sid != r.host) = false := by
    simp [hhost]
  simp [hb, hready, hstarted]

/-- Witness for C10 at a started two-player room. -/
theorem start_game_already_started_noop_witness :
    start_game roomAB 1 [] = (roomAB, .err "Game already started", []) :=
  start_game_already_started_noop roomAB 1 [] (by decide) (by decide) (by decide)

/-! ## C5 — clamping of `numPrompts` -/

/-- C5 counterexample: the host requests `numPrompts = -3`; the stored
`numRounds` is `DEFAULT_NUM_PROMPTS = 10`, not the `1` the claim requires
for requests below 1. -/
theorem clamp_below_one_yields_default_not_one :
    (generate_prompts_handler roomAB 1 (some (-3))).1.numRounds = DEFAULT_NUM_PROMPTS ∧
    (generate_prompts_handler roomAB 1 (some (-3))).1.numRounds ≠ 1 := by
  decide

/-- C5 (amended): the host's requested `numPrompts` is forced into
`[1, MAX_ROUNDS]` before being stored as `numRounds`, but a request below 1
(including the falsy `0`) yields `DEFAULT_NUM_PROMPTS = 10` — not 1 — while
a request above `MAX_ROUNDS` yields `MAX_ROUNDS` and an in-range request is
stored unchanged. -/
theorem generate_prompts_clamps_range (r : Room) (sid : Nat) (n : Int)
    (hhost : r.socketToPlayerId.lookup sid = r.host) :
    1 ≤ (generate_prompts_handler r sid (some n)).1.numRounds ∧
    (generate_prompts_handler r sid (some n)).1.numRounds ≤ MAX_ROUNDS ∧
    (n < 1 →
      (generate_prompts_handler r sid (some n)).1.numRounds = DEFAULT_NUM_PROMPTS) ∧
    ((MAX_ROUNDS : Int) < n →
      (generate_prompts_handler r sid (some n)).1.numRounds = MAX_ROUNDS) ∧
    (1 ≤ n → n ≤ (MAX_ROUNDS : Int) →
      ((generate_prompts_handler r sid (some n)).1.numRounds : Int) = n) := by
  have hb : (r.socketToPlayerId.lookup sid != r.host) = false := by simp [hhost]
  unfold generate_prompts_handler requestedNumPrompts DEFAULT_NUM_PROMPTS MAX_ROUNDS
  simp only [hb, beq_iff_eq, Bool.false_eq_true, if_false]
  split_ifs <;> refine ⟨?_, ?_, ?_, ?_, ?_⟩ <;> intros <;> omega

/-- Witness for the amended C5 at a concrete room and request. -/
theorem generate_prompts_clamps_range_witness :
    1 ≤ (generate_prompts_handler roomAB 1 (some 99)).1.numRounds ∧
    (generate_prompts_handler roomAB 1 (some 99)).1.numRounds ≤ MAX_ROUNDS ∧
    ((99 : Int) < 1 →
      (generate_prompts_handler roomAB 1 (some 99)).1.numRounds = DEFAULT_NUM_PROMPTS) ∧
    ((MAX_ROUNDS : Int) < 99 →
      (generate_prompts_handler roomAB 1 (some 99)).1.numRounds = MAX_ROUNDS) ∧
    ((1 : Int) ≤ 99 → (99 : Int) ≤ (MAX_ROUNDS : Int) →
      ((generate_prompts_handler roomAB 1 (some 99)).1.numRounds : Int) = 99) :=
  generate_prompts_clamps_range roomAB 1 99 (by decide)

/-! ## C6 — host-forced next-round -/

/-- C6 counterexample: `roomAB` is mid-round (`roundEnded = false`, a
current prompt is live), yet a host `next-round` advances the game anyway:
`roundId` goes from 1 to 2, `currentRoundIndex` from 1 to 2, and a
broadcast is emitted — the claim's required no-op does not happen. -/
theorem next_round_during_active_round_not_ignored :
    roomAB.roundEnded = false ∧ roomAB.currentPrompt.isSome = true ∧
    (next_round roomAB 1 20).map (fun res => (res.1.roundId, res.1.currentRound, res.2.length))
      = some (2, 2, 1) := by
  decide

/-- C6 (amended): a host-issued `next-round` is never gated on the round
state: it always invokes `start_round`, so when rounds remain (and the
prompt list is long enough) it starts the next round — incrementing
`roundId` and `currentRoundIndex` and broadcasting `new-round` — even while
a round is still active, and when no rounds remain it marks the game ended
and broadcasts `game-over`. -/
theorem next_round_always_advances (r : Room) (sid now : Nat)
    (hhost : r.socketToPlayerId.lookup sid = r.host) :
    (r.numRounds ≤ r.currentRound →
      ∃ r', next_round r sid now = some (r', [Event.gameOver r.players]) ∧
        r'.gameEnded = true ∧ r'.roundId = r.roundId ∧
        r'.currentRound = r.currentRound) ∧
    (∀ pr, r.prompts[r.currentRound]? = some pr → r.currentRound < r.numRounds →
      ∃ r', next_round r sid now
          = some (r', [Event.newRound pr.text (r.currentRound + 1) ROUND_TIME]) ∧
        r'.roundId = r.roundId + 1 ∧ r'.currentRound = r.currentRound + 1 ∧
        r'.roundEnded = false ∧ r'.answers = [] ∧ r'.answer_order = [] ∧
        r'.currentPrompt = some pr ∧ r'.players = r.players) := by
  have hb : (r.socketToPlayerId.lookup sid != r.host) = false := by simp [hhost]
  unfold next_round start_round
  simp only [hb, Bool.false_eq_true, if_false]
  constructor
  · intro hge
    rw [if_pos hge]
    exact ⟨_, rfl, rfl, rfl, rfl⟩
  · intro pr hpr hlt
    rw [if_neg (by omega)]
    rw [hpr]
    exact ⟨_, rfl, rfl, rfl, rfl, rfl, rfl, rfl, rfl⟩

/-! ## C7 — all-answered finalization -/

theorem lookup_isSome_iff_mem_keys {ν : Type} (l : List (String × ν)) (k : String) :
    (l.lookup k).isSome = true ↔ k ∈ l.map Prod.fst := by
  induction l with
  | nil => simp [List.lookup]
  | cons kv rest ih =>
    obtain ⟨k', v⟩ := kv
    by_cases h : k = k'
    · subst h
      simp [List.lookup]
    · have hb : (k == k') = false := by simp [h]
      simp [List.lookup, hb, h, ih]

theorem end_round_emits_one (r : Room) (h : r.roundEnded = false) :
    (end_round r).2.countP Event.isRoundEnded = 1 := by
  unfold end_round
  simp only [h, Bool.false_eq_true, if_false]
  split <;>
    simp [Event.isRoundEnded, List.countP_cons, List.countP_nil, List.countP_append]

theorem end_round_answers (r : Room) : (end_round r).1.answers = r.answers := by
  unfold end_round
  split
  · rfl
  · simp only []
    split <;> rfl

/-- C7 counterexample: in `roomABDisconnected` player `B` has disconnected
(no live socket binding) while still listed in `players`.  After `A` — the
only connected player — submits, every connected player has answered this
round, yet the round is not finalized: `roundEnded` stays false and no
`round-ended` broadcast goes out, because the code compares the answer
count against the full `players` list. -/
theorem submit_answer_all_connected_answered_but_no_finalize :
    (∀ kv ∈ roomABDisconnected.playerSockets,
      ((submit_answer roomABDisconnected "A" "red" 3).1.answers.lookup kv.1).isSome = true) ∧
    (submit_answer roomABDisconnected "A" "red" 3).1.roundEnded = false ∧
    (submit_answer roomABDisconnected "A" "red" 3).2.countP Event.isRoundEnded = 0 := by
  decide

/-- C7 (amended): during an active round, a `submit-answer` that records a
new answer from a listed player finalizes the round immediately — setting
`roundEnded` and emitting exactly one `round-ended` broadcast with scoring
applied — precisely when, after recording it, every player in the room's
`players` list (connected or not) has an entry in `answers`. -/
theorem submit_answer_finalizes_iff_all_listed (r : Room) (pid rawInput : String)
    (now : Nat)
    (hcp : r.currentPrompt.isSome = true) (hre : r.roundEnded = false)
    (hnew : r.answers.lookup pid = none)
    (hmem : pid ∈ r.players.map Player.playerId)
    (hkeysnd : (r.answers.map Prod.fst).Nodup)
    (hkeyssub : ∀ k ∈ r.answers.map Prod.fst, k ∈ r.players.map Player.playerId)
    (hpnd : (r.players.map Player.playerId).Nodup) :
    ((submit_answer r pid rawInput now).1.roundEnded = true ↔
      ∀ p ∈ r.players,
        ((submit_answer r pid rawInput now).1.answers.lookup p.playerId).isSome = true) ∧
    ((submit_answer r pid rawInput now).1.roundEnded = true →
      (submit_answer r pid rawInput now).2.countP Event.isRoundEnded = 1) := by
  obtain ⟨cp, hcpEq⟩ := Option.isSome_iff_exists.mp hcp
  have hfind : (r.players.find? (fun p => p.playerId == pid)).isSome = true := by
    rw [List.find?_isSome]
    obtain ⟨p, hp, hpe⟩ := List.mem_map.mp hmem
    exact ⟨p, hp, by simp [hpe]⟩
  obtain ⟨player, hplayerEq⟩ := Option.isSome_iff_exists.mp hfind
  have hpidnotin : pid ∉ r.answers.map Prod.fst := by
    intro hin
    rw [← lookup_isSome_iff_mem_keys] at hin
    simp [hnew] at hin
  have hkeysnd' : ((r.answers.map Prod.fst) ++ [pid]).Nodup := by
    refine List.Nodup.append hkeysnd (List.nodup_singleton pid) ?_
    intro x hx hx'
    rw [List.mem_singleton] at hx'
    exact hpidnotin (hx' ▸ hx)
  have hkeyssub' : ∀ k ∈ (r.answers.map Prod.fst) ++ [pid],
      k ∈ r.players.map Player.playerId := by
    intro k hk
    rcases List.mem_append.mp hk with hk | hk
    · exact hkeyssub k hk
    · rw [List.mem_singleton] at hk
      exact hk ▸ hmem
  have hlenkeys : ((r.answers.map Prod.fst) ++ [pid]).length = r.answers.length + 1 := by
    simp
  have hlenpids : (r.players.map Player.playerId).length = r.players.length := by
    simp
  unfold submit_answer
  rw [hcpEq, hplayerEq]
  simp only [Option.isNone_some, hre, Bool.or_false, Bool.false_eq_true, if_false,
    hnew, Option.isSome_none, Bool.not_false, Bool.and_true,
    List.length_append, List.length_cons, List.length_nil, Nat.zero_add]
  by_cases hc : r.answers.length + 1 = r.players.length
  · have hcb : (r.answers.length + 1 == r.players.length) = true := by
      simp [hc]
    simp only [hcb, if_true]
    constructor
    · constructor
      · intro _ p hp
        rw [end_round_answers]
        rw [lookup_isSome_iff_mem_keys]
        have hperm : ((r.answers.map Prod.fst) ++ [pid]).Perm
            (r.players.map Player.playerId) := by
          refine (List.subperm_of_subset hkeysnd' hkeyssub').perm_of_length_le ?_
          omega
        have hmem2 : p.playerId ∈ r.players.map Player.playerId :=
          List.mem_map.mpr ⟨p, hp, rfl⟩
        rw [List.map_append]
        simpa using hperm.mem_iff.mpr hmem2
      · intro _
        exact end_round_sets_roundEnded _ rfl
    · intro _
      rw [List.countP_append, end_round_emits_one _ rfl]
      simp [Event.isRoundEnded, List.countP_cons, List.countP_nil]
  · have hcb : (r.answers.length + 1 == r.players.length) = false := by
      simp only [beq_eq_false_iff_ne]
      exact hc
    simp only [hcb, Bool.false_eq_true, if_false]
    constructor
    · constructor
      · intro hco
        exact absurd hco (by simp [hre])
      · intro hall
        exfalso
        have hsub2 : ∀ x ∈ r.players.map Player.playerId,
            x ∈ (r.answers.map Prod.fst) ++ [pid] := by
          intro x hx
          obtain ⟨p, hp, hpe⟩ := List.mem_map.mp hx
          have hsome := hall p hp
          rw [lookup_isSome_iff_mem_keys, List.map_append] at hsome
          simp only [List.map_cons, List.map_nil] at hsome
          exact hpe ▸ hsome
        have h1 := (List.subperm_of_subset hkeysnd' hkeyssub').length_le
        have h2 := (List.subperm_of_subset hpnd hsub2).length_le
        simp only [List.length_append, List.length_map, List.length_cons,
          List.length_nil] at h1 h2
        omega
    · intro hco
      exact absurd hco (by simp [hre])

/-- Witness for the amended C7: player `B` completes the answer set of
`roomABAnswered`, so the round ends immediately. -/
theorem submit_answer_finalizes_iff_all_listed_witness :
    ((submit_answer roomABAnswered "B" "blue" 9).1.roundEnded = true ↔
      ∀ p ∈ roomABAnswered.players,
        ((submit_answer roomABAnswered "B" "blue" 9).1.answers.lookup p.playerId).isSome
          = true) ∧
    ((submit_answer roomABAnswered "B" "blue" 9).1.roundEnded = true →
      (submit_answer roomABAnswered "B" "blue" 9).2.countP Event.isRoundEnded = 1) :=
  submit_answer_finalizes_iff_all_listed roomABAnswered "B" "blue" 9 (by decide)
    (by decide) (by decide) (by decide) (by decide) (by decide) (by decide)

/-! ## C3 — ranked scoring bonuses -/

theorem insertByTs_perm (e : AnswerEntry) (l : List AnswerEntry) :
    (insertByTs e l).Perm (e :: l) := by
  induction l with
  | nil => simp [insertByTs]
  | cons x xs ih =>
    unfold insertByTs
    by_cases h : x.ts < e.ts
    · simp only [h, if_true]
      exact (ih.cons x).trans (List.Perm.swap e x xs)
    · simp [h]

theorem sortByTs_perm (l : List AnswerEntry) : (sortByTs l).Perm l := by
  induction l with
  | nil => simp [sortByTs]
  | cons x xs ih =>
    exact (insertByTs_perm x (sortByTs xs)).trans (ih.cons x)

theorem insertByTs_pairwise (e : AnswerEntry) (l : List AnswerEntry)
    (h : l.Pairwise (fun a b => a.ts ≤ b.ts)) :
    (insertByTs e l).Pairwise (fun a b => a.ts ≤ b.ts) := by
  induction l with
  | nil => simp [insertByTs]
  | cons x xs ih =>
    rw [List.pairwise_cons] at h
    obtain ⟨hx, hxs⟩ := h
    unfold insertByTs
    by_cases hlt : x.ts < e.ts
    · simp only [hlt, if_true]
      rw [List.pairwise_cons]
      refine ⟨?_, ih hxs⟩
      intro b hb
      rcases List.mem_cons.mp ((insertByTs_perm e xs).mem_iff.mp hb) with hb | hb
      · subst hb
        omega
      · exact hx b hb
    · simp only [hlt, if_false]
      rw [List.pairwise_cons]
      refine ⟨?_, List.pairwise_cons.mpr ⟨hx, hxs⟩⟩
      intro b hb
      rcases List.mem_cons.mp hb with hb | hb
      · subst hb
        omega
      · have := hx b hb
        omega

theorem sortByTs_pairwise (l : List AnswerEntry) :
    (sortByTs l).Pairwise (fun a b => a.ts ≤ b.ts) := by
  induction l with
  | nil => simp [sortByTs]
  | cons x xs ih => exact insertByTs_pairwise x (sortByTs xs) ih

theorem filter_insertByTs (e : AnswerEntry) (l : List AnswerEntry) (t : Nat) :
    (insertByTs e l).filter (fun x => x.ts == t)
      = if e.ts = t then e :: l.filter (fun x => x.ts == t)
        else l.filter (fun x => x.ts == t) := by
  induction l with
  | nil =>
    by_cases het : e.ts = t
    · have heb : (e.ts == t) = true := by simp [het]
      simp [insertByTs, List.filter_cons, heb, het]
    · have heb : (e.ts == t) = false := by simp [het]
      simp [insertByTs, List.filter_cons, heb, het]
  | cons x xs ih =>
    unfold insertByTs
    by_cases hlt : x.ts < e.ts
    · simp only [hlt, if_true]
      by_cases hxt : x.ts = t
      · have het : ¬ e.ts = t := by omega
        have hxb : (x.ts == t) = true := by simp [hxt]
        simp [List.filter_cons, hxb, het, ih]
      · have hxb : (x.ts == t) = false := by simp [hxt]
        simp [List.filter_cons, hxb, ih]
    · simp only [hlt, if_false]
      by_cases het : e.ts = t
      · have heb : (e.ts == t) = true := by simp [het]
        simp [List.filter_cons, heb, het]
      · have heb : (e.ts == t) = false := by simp [het]
        simp [List.filter_cons, heb, het]

theorem sortByTs_stable (l : List AnswerEntry) (t : Nat) :
    (sortByTs l).filter (fun x => x.ts == t) = l.filter (fun x => x.ts == t) := by
  induction l with
  | nil => simp [sortByTs]
  | cons x xs ih =>
    show (insertByTs x (sortByTs xs)).filter (fun e => e.ts == t) = _
    rw [filter_insertByTs]
    by_cases hxt : x.ts = t
    · have hxb : (x.ts == t) = true := by simp [hxt]
      simp [hxt, List.filter_cons, hxb, ih]
    · have hxb : (x.ts == t) = false := by simp [hxt]
      simp [hxt, List.filter_cons, hxb, ih]

theorem updateScore_map_playerId (ps : List Player) (pid : String) (pts : Nat) :
    (updateScore ps pid pts).map Player.playerId = ps.map Player.playerId := by
  induction ps with
  | nil => rfl
  | cons p ps ih =>
    unfold updateScore
    by_cases h : (p.playerId == pid) = true <;> simp [h, ih]

theorem find?_playerId_isSome_iff (ps : List Player) (x : String) :
    ((ps.find? (fun p => p.playerId == x)).isSome = true)
      ↔ x ∈ ps.map Player.playerId := by
  rw [List.find?_isSome]
  constructor
  · rintro ⟨p, hp, hpe⟩
    exact List.mem_map.mpr ⟨p, hp, beq_iff_eq.mp hpe⟩
  · intro hx
    obtain ⟨p, hp, hpe⟩ := List.mem_map.mp hx
    exact ⟨p, hp, by simp [hpe]⟩

theorem scoreOf_updateScore_self (ps : List Player) (pid : String) (pts : Nat) :
    scoreOf (updateScore ps pid pts) pid = (scoreOf ps pid).map (· + pts) := by
  induction ps with
  | nil => simp [scoreOf, updateScore]
  | cons p ps ih =>
    unfold updateScore
    by_cases h : (p.playerId == pid) = true
    · simp [scoreOf, List.find?_cons, h]
    · simp only [h, Bool.false_eq_true, if_false]
      simp only [scoreOf, List.find?_cons, h] at ih ⊢
      exact ih

theorem scoreOf_updateScore_ne (ps : List Player) (pid : String) (pts : Nat)
    (q : String) (hq : q ≠ pid) :
    scoreOf (updateScore ps pid pts) q = scoreOf ps q := by
  induction ps with
  | nil => simp [scoreOf, updateScore]
  | cons p ps ih =>
    unfold updateScore
    by_cases h : (p.playerId == pid) = true
    · have hpq : (p.playerId == q) = false := by
        rw [beq_eq_false_iff_ne]
        rw [beq_iff_eq] at h
        rw [h]
        exact fun hpq => hq hpq.symm
      rw [if_pos h]
      simp [scoreOf, List.find?_cons, hpq]
    · rw [if_neg h]
      by_cases hpq : (p.playerId == q) = true
      · simp [scoreOf, List.find?_cons, hpq]
      · rw [Bool.not_eq_true] at hpq
        simp only [scoreOf, List.find?_cons, hpq] at ih ⊢
        exact ih

theorem bonusAux_cons (e : AnswerEntry) (es : List AnswerEntry) (t : Nat)
    (rest : List Nat) (pid : String) :
    bonusAux (e :: es) (t :: rest) pid
      = if e.playerId == pid then t else bonusAux es rest pid := rfl

theorem bonusAux_of_not_mem (es : List AnswerEntry) (pts : List Nat) (pid : String)
    (h : pid ∉ es.map AnswerEntry.playerId) :
    bonusAux es pts pid = 0 := by
  induction es generalizing pts with
  | nil => cases pts <;> rfl
  | cons e es ih =>
    cases pts with
    | nil => rfl
    | cons t rest =>
      simp only [List.map_cons, List.mem_cons, not_or] at h
      have h1 : (e.playerId == pid) = false := by
        rw [beq_eq_false_iff_ne]
        exact fun he => h.1 he.symm
      rw [bonusAux_cons, h1]
      simp only [Bool.false_eq_true, if_false]
      exact ih rest h.2

theorem scoreOf_scoreTop (es : List AnswerEntry) (pts : List Nat) (ps : List Player)
    (pos : Nat) (q : String)
    (hnd : (es.map AnswerEntry.playerId).Nodup)
    (hfound : ∀ e ∈ es, ((ps.find? (fun p => p.playerId == e.playerId)).isSome = true)) :
    scoreOf (scoreTop ps es pts pos).1 q
      = (scoreOf ps q).map (· + bonusAux es pts q) := by
  induction es generalizing ps pos pts with
  | nil =>
    cases pts <;> (unfold scoreTop bonusAux; cases h : scoreOf ps q <;> simp [h])
  | cons e es ih =>
    cases pts with
    | nil =>
      unfold scoreTop bonusAux
      cases h : scoreOf ps q <;> simp [h]
    | cons t rest =>
      have hf := hfound e (List.mem_cons_self e es)
      obtain ⟨p, hpEq⟩ := Option.isSome_iff_exists.mp hf
      unfold scoreTop
      rw [hpEq]
      simp only []
      rw [List.map_cons, List.nodup_cons] at hnd
      have hfound' : ∀ e' ∈ es,
          (((updateScore ps e.playerId t).find?
            (fun p => p.playerId == e'.playerId)).isSome = true) := by
        intro e' he'
        rw [find?_playerId_isSome_iff, updateScore_map_playerId,
          ← find?_playerId_isSome_iff]
        exact hfound e' (List.mem_cons_of_mem e he')
      rw [ih rest (updateScore ps e.playerId t) (pos + 1) hnd.2 hfound']
      by_cases hq : e.playerId = q
      · subst hq
        rw [scoreOf_updateScore_self]
        have h0 : bonusAux es rest e.playerId = 0 := bonusAux_of_not_mem es rest _ hnd.1
        rw [bonusAux_cons]
        simp only [beq_self_eq_true, if_true, h0]
        cases h : scoreOf ps e.playerId <;> simp [h]
      · have hqb : (e.playerId == q) = false := by simp [hq]
        rw [scoreOf_updateScore_ne ps e.playerId t q (fun he => hq he.symm)]
        rw [bonusAux_cons, hqb]
        simp only [Bool.false_eq_true, if_false]

theorem bonusAux_get (es : List AnswerEntry) (pts : List Nat)
    (hnd : (es.map AnswerEntry.playerId).Nodup) (i : Nat) (hi : i < es.length) :
    bonusAux es pts (es.get ⟨i, hi⟩).playerId = pts.getD i 0 := by
  induction es generalizing pts i with
  | nil => simp at hi
  | cons e es ih =>
    rw [List.map_cons, List.nodup_cons] at hnd
    cases pts with
    | nil =>
      have h1 : bonusAux (e :: es) [] ((e :: es).get ⟨i, hi⟩).playerId = 0 := rfl
      rw [h1]
      simp
    | cons t rest =>
      cases i with
      | zero =>
        have hget : (e :: es).get ⟨0, hi⟩ = e := rfl
        rw [hget, bonusAux_cons]
        simp [beq_self_eq_true]
      | succ n =>
        have hn : n < es.length := by
          simp only [List.length_cons] at hi
          omega
        have hmem : (es.get ⟨n, hn⟩).playerId ∈ es.map AnswerEntry.playerId :=
          List.mem_map.mpr ⟨es.get ⟨n, hn⟩, List.get_mem es n hn, rfl⟩
        have hne : (e.playerId == (es.get ⟨n, hn⟩).playerId) = false := by
          rw [beq_eq_false_iff_ne]
          intro he
          exact hnd.1 (he ▸ hmem)
        have hget : (e :: es).get ⟨n + 1, hi⟩ = es.get ⟨n, hn⟩ := rfl
        rw [hget, bonusAux_cons, hne]
        simp only [Bool.false_eq_true, if_false, List.getD_cons_succ]
        exact ih rest hnd.2 n hn

/-- C3: for a finalized round's `answerOrder` (one entry per submitter, all
correct submitters listed in `players`), the Scoring Engine ranks the
correct entries by ascending timestamp — stably, so equal timestamps keep
submission order — and adds `points = [5, 3, 2]` positionally to the first,
second and third ranked submitters' cumulative scores, while every other
player (beyond the third correct submitter, or incorrect, or silent) keeps
an unchanged score. -/
theorem scoring_awards_ranked_bonuses (r : Room)
    (hao : ((correctEntries r).map AnswerEntry.playerId).Nodup)
    (hpresent : ∀ e ∈ correctEntries r, e.playerId ∈ r.players.map Player.playerId) :
    (sortByTs (correctEntries r)).Pairwise (fun a b => a.ts ≤ b.ts) ∧
    (∀ t, (sortByTs (correctEntries r)).filter (fun x => x.ts == t)
        = (correctEntries r).filter (fun x => x.ts == t)) ∧
    (∀ q, scoreOf (apply_scoring_from_order r).1.players q
        = (scoreOf r.players q).map
            (· + bonusAux ((sortByTs (correctEntries r)).take 3) points q)) ∧
    (∀ i, (hi : i < ((sortByTs (correctEntries r)).take 3).length) →
      bonusAux ((sortByTs (correctEntries r)).take 3) points
          (((sortByTs (correctEntries r)).take 3).get ⟨i, hi⟩).playerId
        = points.getD i 0) := by
  have hpermMap : ((correctEntries r).map AnswerEntry.playerId).Perm
      ((sortByTs (correctEntries r)).map AnswerEntry.playerId) :=
    ((sortByTs_perm (correctEntries r)).map AnswerEntry.playerId).symm
  have hndSorted : ((sortByTs (correctEntries r)).map AnswerEntry.playerId).Nodup :=
    hpermMap.nodup hao
  have hndTake : (((sortByTs (correctEntries r)).take 3).map AnswerEntry.playerId).Nodup := by
    rw [List.map_take]
    exact (List.take_sublist 3 _).nodup hndSorted
  refine ⟨sortByTs_pairwise _, fun t => sortByTs_stable _ t, ?_, ?_⟩
  · intro q
    unfold apply_scoring_from_order
    simp only []
    refine scoreOf_scoreTop _ _ _ _ _ hndTake ?_
    intro e he
    rw [find?_playerId_isSome_iff]
    exact hpresent e ((sortByTs_perm (correctEntries r)).mem_iff.mp
      (List.mem_of_mem_take he))
  · intro i hi
    exact bonusAux_get _ points hndTake i hi

/-- Witness for C3 at `roomScoring`: `Z` answered first but wrong, `W` and
`X` tie at `ts = 4` (submission order `W` then `X`), `Y` is third. -/
theorem scoring_awards_ranked_bonuses_witness :
    (sortByTs (correctEntries roomScoring)).Pairwise (fun a b => a.ts ≤ b.ts) ∧
    (∀ t, (sortByTs (correctEntries roomScoring)).filter (fun x => x.ts == t)
        = (correctEntries roomScoring).filter (fun x => x.ts == t)) ∧
    (∀ q, scoreOf (apply_scoring_from_order roomScoring).1.players q
        = (scoreOf roomScoring.players q).map
            (· + bonusAux ((sortByTs (correctEntries roomScoring)).take 3) points q)) ∧
    (∀ i, (hi : i < ((sortByTs (correctEntries roomScoring)).take 3).length) →
      bonusAux ((sortByTs (correctEntries roomScoring)).take 3) points
          (((sortByTs (correctEntries roomScoring)).take 3).get ⟨i, hi⟩).playerId
        = points.getD i 0) :=
  scoring_awards_ranked_bonuses roomScoring (by decide) (by decide)

example :
    (apply_scoring_from_order roomScoring).1.players.map (fun p => (p.playerId, p.score))
      = [("W", 6), ("X", 5), ("Y", 5), ("Z", 4)] ∧
    (apply_scoring_from_order roomScoring).2.map (fun a => (a.playerId, a.points, a.position))
      = [("W", 5, 1), ("X", 3, 2), ("Y", 2, 3)] := by decide

/-! ## C4 — prompt generation and fallback padding -/

theorem padLoop_stuck (num : Nat) (prompts : List Prompt) (existing : List String)
    (hlen : prompts.length < num)
    (hall : ∀ j : Nat,
      pyLower (fallback_pool.getD (j % fallback_pool.length) default).text ∈ existing) :
    ∀ fuel i, padLoop num fuel prompts existing i = none := by
  intro fuel
  induction fuel with
  | zero =>
    intro i
    unfold padLoop
    rw [if_neg (by omega)]
  | succ n ih =>
    intro i
    unfold padLoop
    rw [if_neg (by omega)]
    have hc : existing.contains
        (pyLower (fallback_pool.getD (i % fallback_pool.length) default).text) = true := by
      simpa using hall i
    simp only [hc, if_true]
    exact ih (i + 1)

/-- C4 (code bug): the claim — `generate_room_prompts` always returns
exactly `count` well-formed prompts for any Prompt Source outcome and any
count in `[1, MAX_ROUNDS]` — fails: when the Prompt Source yields exactly
the five built-in fallback prompts and `count = 10` is requested, the
padding `while` loop can never add a prompt (every fallback text is already
present, and the loop body only advances `i` in that case), so the Python
function loops forever instead of returning; in the fuelled model the loop
returns `none` for every fuel. -/
theorem generate_room_prompts_pad_loop_diverges :
    ∀ fuel, generate_room_prompts allFallbackOutcome 10 fuel = none := by
  intro fuel
  have hsrc : sourcePrompts allFallbackOutcome = fallback_pool := by decide
  have h5 : ∀ k, k < 5 →
      pyLower (fallback_pool.getD k default).text
        ∈ fallback_pool.map (fun p => pyLower p.text) := by decide
  have hall : ∀ j : Nat,
      pyLower (fallback_pool.getD (j % fallback_pool.length) default).text
        ∈ fallback_pool.map (fun p => pyLower p.text) := by
    intro j
    exact h5 (j % fallback_pool.length) (Nat.mod_lt j (by decide))
  unfold generate_room_prompts
  rw [hsrc]
  simp only []
  rw [if_pos (show fallback_pool.length < 10 by decide)]
  rw [padLoop_stuck 10 fallback_pool (fallback_pool.map (fun p => pyLower p.text))
    (by decide) hall fuel 0]

/-- Witness for the amended C6: the host forces `next-round` in the middle
of `roomAB`'s first round. -/
theorem next_round_always_advances_witness :
    ∃ r', next_round roomAB 1 20
        = some (r', [Event.newRound "Name a fruit" (roomAB.currentRound + 1) ROUND_TIME]) ∧
      r'.roundId = roomAB.roundId + 1 ∧ r'.currentRound = roomAB.currentRound + 1 ∧
      r'.roundEnded = false ∧ r'.answers = [] ∧ r'.answer_order = [] ∧
      r'.currentPrompt = some ⟨"Name a fruit", ["apple"]⟩ ∧ r'.players = roomAB.players :=
  (next_round_always_advances roomAB 1 20 (by decide)).2
    ⟨"Name a fruit", ["apple"]⟩ (by decide) (by decide)

/-! ## C9 — scores only grow, and only through the Scoring Engine -/

theorem not_mem_eraseP_self (l : List String) (x : String) (hnd : l.Nodup) :
    x ∉ l.eraseP (fun y => y == x) := by
  induction l with
  | nil => simp
  | cons a l ih =>
    rw [List.nodup_cons] at hnd
    rw [List.eraseP_cons]
    by_cases h : (a == x) = true
    · simp only [h, cond_true]
      rw [beq_iff_eq] at h
      exact h ▸ hnd.1
    · simp only [h, cond_false]
      intro hmem
      rcases List.mem_cons.mp hmem with he | he
      · rw [Bool.not_eq_true, beq_eq_false_iff_ne] at h
        exact h he.symm
      · exact ih hnd.2 he

theorem find?_eraseP_ne (ps : List Player) (pid q : String) (hq : q ≠ pid) :
    (ps.eraseP (fun p => p.playerId == pid)).find? (fun p => p.playerId == q)
      = ps.find? (fun p => p.playerId == q) := by
  induction ps with
  | nil => rfl
  | cons p ps ih =>
    rw [List.eraseP_cons]
    by_cases h : (p.playerId == pid) = true
    · have hpq : (p.playerId == q) = false := by
        rw [beq_eq_false_iff_ne]
        rw [beq_iff_eq] at h
        rw [h]
        exact fun hc => hq hc.symm
      simp only [h, cond_true, List.find?_cons, hpq]
    · rw [Bool.not_eq_true] at h
      simp only [h, cond_false]
      by_cases hpq : (p.playerId == q) = true
      · simp only [List.find?_cons, hpq]
      · rw [Bool.not_eq_true] at hpq
        simp only [List.find?_cons, hpq]
        exact ih

theorem map_playerId_eraseP (ps : List Player) (pid : String) :
    (ps.eraseP (fun p => p.playerId == pid)).map Player.playerId
      = (ps.map Player.playerId).eraseP (fun y => y == pid) := by
  rw [List.eraseP_map]
  rfl

theorem scoreOf_scoreTop_monotone (es : List AnswerEntry) (pts : List Nat)
    (ps : List Player) (pos : Nat) (q : String) (s : Nat)
    (h : scoreOf ps q = some s) :
    ∃ s', scoreOf (scoreTop ps es pts pos).1 q = some s' ∧ s ≤ s' := by
  induction es generalizing ps pts pos s with
  | nil => cases pts <;> exact ⟨s, h, Nat.le_refl s⟩
  | cons e es ih =>
    cases pts with
    | nil => exact ⟨s, h, Nat.le_refl s⟩
    | cons t rest =>
      unfold scoreTop
      cases hf : ps.find? (fun p => p.playerId == e.playerId) with
      | none =>
        simp only []
        exact ih rest ps (pos + 1) s h
      | some p =>
        simp only []
        by_cases hq : e.playerId = q
        · subst hq
          have h2 : scoreOf (updateScore ps e.playerId t) e.playerId = some (s + t) := by
            rw [scoreOf_updateScore_self, h]
            rfl
          obtain ⟨s', hs', hle⟩ := ih rest _ (pos + 1) (s + t) h2
          exact ⟨s', hs', by omega⟩
        · have h2 : scoreOf (updateScore ps e.playerId t) q = some s := by
            rw [scoreOf_updateScore_ne ps e.playerId t q (fun hc => hq hc.symm)]
            exact h
          exact ih rest _ (pos + 1) s h2

theorem scoreTop_map_playerId (es : List AnswerEntry) (pts : List Nat)
    (ps : List Player) (pos : Nat) :
    (scoreTop ps es pts pos).1.map Player.playerId = ps.map Player.playerId := by
  induction es generalizing ps pts pos with
  | nil => cases pts <;> rfl
  | cons e es ih =>
    cases pts with
    | nil => rfl
    | cons t rest =>
      unfold scoreTop
      cases hf : ps.find? (fun p => p.playerId == e.playerId) with
      | none =>
        simp only []
        exact ih rest ps (pos + 1)
      | some p =>
        simp only []
        rw [ih rest _ (pos + 1), updateScore_map_playerId]

theorem end_round_map_playerId (r : Room) :
    (end_round r).1.players.map Player.playerId = r.players.map Player.playerId := by
  unfold end_round
  split
  · rfl
  · simp only []
    split
    · exact scoreTop_map_playerId _ _ _ _
    · exact scoreTop_map_playerId _ _ _ _

theorem end_round_scoreOf_monotone (r : Room) (q : String) (s : Nat)
    (h : scoreOf r.players q = some s) :
    ∃ s', scoreOf (end_round r).1.players q = some s' ∧ s ≤ s' := by
  unfold end_round
  split
  · exact ⟨s, h, Nat.le_refl s⟩
  · simp only []
    split
    · exact scoreOf_scoreTop_monotone _ _ _ _ _ _ h
    · exact scoreOf_scoreTop_monotone _ _ _ _ _ _ h

theorem start_round_players (r : Room) (now : Nat) (r' : Room) (evs : List Event)
    (h : start_round r now = some (r', evs)) : r'.players = r.players := by
  unfold start_round at h
  by_cases hge : r.numRounds ≤ r.currentRound
  · rw [if_pos hge, Option.some_inj, Prod.mk.injEq] at h
    rw [← h.1]
  · rw [if_neg hge] at h
    cases hp : r.prompts[r.currentRound]? with
    | none =>
      rw [hp] at h
      exact absurd h (by simp)
    | some pr =>
      rw [hp, Option.some_inj, Prod.mk.injEq] at h
      rw [← h.1]

theorem start_game_players (r : Room) (sid : Nat) (gen : List Prompt) :
    (start_game r sid gen).1.players = r.players := by
  unfold start_game
  by_cases hh : (r.socketToPlayerId.lookup sid != r.host) = true
  · rw [if_pos hh]
  · rw [if_neg hh]
    simp only []
    by_cases hr : r.prompts_ready = true <;>
      simp only [hr, Bool.not_true, Bool.not_false, Bool.false_eq_true, if_false, if_true] <;>
      split <;> rfl

theorem generate_prompts_handler_players (r : Room) (sid : Nat) (n : Option Int) :
    (generate_prompts_handler r sid n).1.players = r.players := by
  unfold generate_prompts_handler
  dsimp only
  split <;> rfl

theorem disconnect_players (r : Room) (sid : Nat) :
    (disconnect r sid).1.players = r.players := by
  unfold disconnect
  split <;> rfl

theorem submit_answer_cases (r : Room) (pid ans : String) (now : Nat) :
    ((submit_answer r pid ans now).1.players = r.players ∧
      (submit_answer r pid ans now).1.roundEnded = r.roundEnded) ∨
    (∃ r1 : Room, (submit_answer r pid ans now).1 = (end_round r1).1 ∧
      r1.players = r.players ∧ r.roundEnded = false ∧ r1.roundEnded = false) := by
  unfold submit_answer
  by_cases h1 : (r.currentPrompt.isNone || r.roundEnded) = true
  · rw [if_pos h1]
    exact Or.inl ⟨rfl, rfl⟩
  · rw [if_neg h1]
    by_cases h2 : (r.answers.lookup pid).isSome = true
    · rw [if_pos h2]
      exact Or.inl ⟨rfl, rfl⟩
    · rw [if_neg h2]
      cases hf : r.players.find? (fun p => p.playerId == pid) with
      | none =>
        exact Or.inl ⟨rfl, rfl⟩
      | some player =>
        dsimp only
        cases hcp : r.currentPrompt with
        | none =>
          exact Or.inl ⟨rfl, rfl⟩
        | some cp =>
          dsimp only
          split
          · rename_i hcond
            rw [Bool.and_eq_true] at hcond
            have hre : r.roundEnded = false := by
              have h3 := hcond.2
              rw [Bool.not_eq_true'] at h3
              exact h3
            exact Or.inr ⟨_, rfl, rfl, hre, hre⟩
          · exact Or.inl ⟨rfl, rfl⟩

theorem round_timer_cases (r : Room) (lid : Nat) :
    round_timer r lid = (r, []) ∨
    (r.roundEnded = false ∧ (round_timer r lid).1 = (end_round r).1) := by
  unfold round_timer
  split
  · rename_i hcond
    rw [Bool.and_eq_true] at hcond
    have hre : r.roundEnded = false := by
      have h3 := hcond.2
      rw [Bool.not_eq_true'] at h3
      exact h3
    exact Or.inr ⟨hre, rfl⟩
  · exact Or.inl rfl

theorem join_room_score_facts (r : Room) (name pid : String) (sid : Nat) (ihb : Bool)
    (now : Nat) (hnd : playersNodup r) :
    playersNodup (join_room r name pid sid ihb now).1 ∧
    scoreOf (join_room r name pid sid ihb now).1.players pid
      = some ((scoreOf r.players pid).getD 0) ∧
    (∀ q, q ≠ pid →
      scoreOf (join_room r name pid sid ihb now).1.players q = scoreOf r.players q) := by
  unfold join_room
  dsimp only
  cases hprev : r.players.find? (fun p => p.playerId == pid) with
  | none =>
    dsimp only
    have hnotin : pid ∉ r.players.map Player.playerId := by
      rw [← find?_playerId_isSome_iff]
      simp [hprev]
    refine ⟨?_, ?_, ?_⟩
    · show ((r.players ++ [(⟨name, pid, 0⟩ : Player)]).map Player.playerId).Nodup
      rw [List.map_append]
      refine List.Nodup.append hnd (List.nodup_singleton _) ?_
      intro x hx hx2
      simp only [List.map_cons, List.map_nil, List.mem_singleton] at hx2
      exact hnotin (hx2 ▸ hx)
    · show scoreOf (r.players ++ [(⟨name, pid, 0⟩ : Player)]) pid = _
      unfold scoreOf
      rw [List.find?_append, hprev]
      simp [List.find?_cons]
    · intro q hq
      show scoreOf (r.players ++ [(⟨name, pid, 0⟩ : Player)]) q = scoreOf r.players q
      unfold scoreOf
      rw [List.find?_append]
      have hb : (pid == q) = false := beq_eq_false_iff_ne.mpr (fun hc => hq hc.symm)
      have hsing : (([(⟨name, pid, 0⟩ : Player)] : List Player).find?
          (fun p => p.playerId == q)) = none := by
        simp [List.find?_cons, hb]
      rw [hsing]
      cases r.players.find? (fun p => p.playerId == q) <;> rfl
  | some p =>
    dsimp only
    have hppid : p.playerId = pid := by
      have h1 := List.find?_some hprev
      rwa [beq_iff_eq] at h1
    have herased : (r.players.eraseP (fun q => q.playerId == pid)).find?
        (fun q => q.playerId == pid) = none := by
      rw [← Option.not_isSome_iff_eq_none]
      rw [Bool.not_eq_true, ← Bool.not_eq_true]
      rw [find?_playerId_isSome_iff, map_playerId_eraseP]
      exact not_mem_eraseP_self _ pid hnd
    refine ⟨?_, ?_, ?_⟩
    · show (((r.players.eraseP (fun q => q.playerId == pid))
          ++ [(⟨name, pid, p.score⟩ : Player)]).map Player.playerId).Nodup
      rw [List.map_append, map_playerId_eraseP]
      refine List.Nodup.append
        ((List.eraseP_sublist _).nodup hnd) (List.nodup_singleton _) ?_
      intro x hx hx2
      simp only [List.map_cons, List.map_nil, List.mem_singleton] at hx2
      exact not_mem_eraseP_self _ pid hnd (hx2 ▸ hx)
    · show scoreOf ((r.players.eraseP (fun q => q.playerId == pid))
          ++ [(⟨name, pid, p.score⟩ : Player)]) pid = _
      unfold scoreOf
      rw [List.find?_append, herased, hprev]
      simp [List.find?_cons]
    · intro q hq
      show scoreOf ((r.players.eraseP (fun q => q.playerId == pid))
          ++ [(⟨name, pid, p.score⟩ : Player)]) q = scoreOf r.players q
      unfold scoreOf
      rw [List.find?_append, find?_eraseP_ne r.players pid q hq]
      have hb : (pid == q) = false := beq_eq_false_iff_ne.mpr (fun hc => hq hc.symm)
      have hsing : (([(⟨name, pid, p.score⟩ : Player)] : List Player).find?
          (fun x => x.playerId == q)) = none := by
        simp [List.find?_cons, hb]
      rw [hsing]
      cases r.players.find? (fun x => x.playerId == q) <;> rfl

theorem score_facts_of_players_eq (r r' : Room) (hp : r'.players = r.players)
    (hnd : playersNodup r) :
    playersNodup r' ∧
    (∀ pid s, scoreOf r.players pid = some s →
      ∃ s', scoreOf r'.players pid = some s' ∧ s ≤ s') ∧
    ((r.roundEnded = true ∨ r'.roundEnded = false) →
      ∀ pid s s', scoreOf r.players pid = some s → scoreOf r'.players pid = some s' →
        s = s') := by
  refine ⟨?_, ?_, ?_⟩
  · unfold playersNodup
    rw [hp]
    exact hnd
  · intro pid s hs
    exact ⟨s, by rw [hp]; exact hs, Nat.le_refl s⟩
  · intro _ pid s s' hs hs'
    rw [hp] at hs'
    have h2 := hs.symm.trans hs'
    exact Option.some_inj.mp h2

theorem score_facts_of_end_round (r r1 r' : Room)
    (hp1 : r1.players = r.players) (hre : r.roundEnded = false)
    (hre1 : r1.roundEnded = false) (h' : r' = (end_round r1).1)
    (hnd : playersNodup r) :
    playersNodup r' ∧
    (∀ pid s, scoreOf r.players pid = some s →
      ∃ s', scoreOf r'.players pid = some s' ∧ s ≤ s') ∧
    ((r.roundEnded = true ∨ r'.roundEnded = false) →
      ∀ pid s s', scoreOf r.players pid = some s → scoreOf r'.players pid = some s' →
        s = s') := by
  have hmap : r'.players.map Player.playerId = r.players.map Player.playerId := by
    rw [h', end_round_map_playerId, hp1]
  refine ⟨?_, ?_, ?_⟩
  · unfold playersNodup
    rw [hmap]
    exact hnd
  · intro pid s hs
    rw [h']
    exact end_round_scoreOf_monotone r1 pid s (by rw [hp1]; exact hs)
  · intro hpre
    exfalso
    rcases hpre with hpre | hpre
    · rw [hre] at hpre
      exact absurd hpre (by simp)
    · rw [h', end_round_sets_roundEnded r1 hre1] at hpre
      exact absurd hpre (by simp)

theorem applyOp_score_facts (r : Room) (op : Op) (r' : Room) (evs : List Event)
    (hnd : playersNodup r) (h : applyOp r op = some (r', evs)) :
    playersNodup r' ∧
    (∀ pid s, scoreOf r.players pid = some s →
      ∃ s', scoreOf r'.players pid = some s' ∧ s ≤ s') ∧
    ((r.roundEnded = true ∨ r'.roundEnded = false) →
      ∀ pid s s', scoreOf r.players pid = some s → scoreOf r'.players pid = some s' →
        s = s') := by
  cases op with
  | join name pid sid ihb now =>
    simp only [applyOp] at h
    rw [Option.some_inj] at h
    have hr' : r' = (join_room r name pid sid ihb now).1 := by
      rw [h]
    obtain ⟨hndJ, hself, hother⟩ := join_room_score_facts r name pid sid ihb now hnd
    refine ⟨hr' ▸ hndJ, ?_, ?_⟩
    · intro q s hs
      rw [hr']
      by_cases hq : q = pid
      · subst hq
        refine ⟨s, ?_, Nat.le_refl s⟩
        rw [hself, hs]
        rfl
      · exact ⟨s, by rw [hother q hq]; exact hs, Nat.le_refl s⟩
    · intro _ q s s' hs hs'
      rw [hr'] at hs'
      by_cases hq : q = pid
      · subst hq
        rw [hself, hs] at hs'
        simp only [Option.getD_some] at hs'
        exact Option.some_inj.mp hs'
      · rw [hother q hq] at hs'
        exact Option.some_inj.mp (hs.symm.trans hs')
  | genPromptsReq sid n =>
    simp only [applyOp] at h
    rw [Option.some_inj, Prod.mk.injEq] at h
    exact score_facts_of_players_eq r r'
      (by rw [← h.1]; exact generate_prompts_handler_players r sid n) hnd
  | genPromptsDone ps =>
    simp only [applyOp] at h
    rw [Option.some_inj, Prod.mk.injEq] at h
    exact score_facts_of_players_eq r r' (by rw [← h.1]) hnd
  | startGame sid gen =>
    simp only [applyOp] at h
    rw [Option.some_inj, Prod.mk.injEq] at h
    exact score_facts_of_players_eq r r'
      (by rw [← h.1]; exact start_game_players r sid gen) hnd
  | startRoundTask now =>
    simp only [applyOp] at h
    exact score_facts_of_players_eq r r' (start_round_players r now r' evs h) hnd
  | submitAnswer pid ans now =>
    simp only [applyOp] at h
    rw [Option.some_inj, Prod.mk.injEq] at h
    rcases submit_answer_cases r pid ans now with ⟨hp, _⟩ | ⟨r1, heq, hp1, hre, hre1⟩
    · exact score_facts_of_players_eq r r' (by rw [← h.1]; exact hp) hnd
    · exact score_facts_of_end_round r r1 r' hp1 hre hre1 (by rw [← h.1, heq]) hnd
  | timerFire lid =>
    simp only [applyOp] at h
    rw [Option.some_inj, Prod.mk.injEq] at h
    rcases round_timer_cases r lid with heq | ⟨hre, h1⟩
    · refine score_facts_of_players_eq r r' ?_ hnd
      rw [← h.1, heq]
    · exact score_facts_of_end_round r r r' rfl hre hre (by rw [← h.1, h1]) hnd
  | delayedNext now =>
    simp only [applyOp] at h
    unfold delayed_next at h
    by_cases hg : r.gameEnded = true
    · rw [if_pos hg, Option.some_inj, Prod.mk.injEq] at h
      exact score_facts_of_players_eq r r' (by rw [← h.1]) hnd
    · rw [if_neg hg] at h
      exact score_facts_of_players_eq r r' (start_round_players r now r' evs h) hnd
  | nextRound sid now =>
    simp only [applyOp] at h
    unfold next_round at h
    dsimp only at h
    by_cases hh : (r.socketToPlayerId.lookup sid != r.host) = true
    · rw [if_pos hh, Option.some_inj, Prod.mk.injEq] at h
      exact score_facts_of_players_eq r r' (by rw [← h.1]) hnd
    · rw [if_neg hh] at h
      exact score_facts_of_players_eq r r' (start_round_players r now r' evs h) hnd
  | disconnectOp sid =>
    simp only [applyOp] at h
    rw [Option.some_inj, Prod.mk.injEq] at h
    exact score_facts_of_players_eq r r'
      (by rw [← h.1]; exact disconnect_players r sid) hnd

theorem applyOps_monotone (ops : List Op) : ∀ r : Room, playersNodup r →
    ∀ r', applyOps r ops = some r' →
    ∀ pid s, scoreOf r.players pid = some s →
      ∃ s', scoreOf r'.players pid = some s' ∧ s ≤ s' := by
  induction ops with
  | nil =>
    intro r hnd r' h pid s hs
    unfold applyOps at h
    rw [Option.some_inj] at h
    subst h
    exact ⟨s, hs, Nat.le_refl s⟩
  | cons op ops ih =>
    intro r hnd r' h pid s hs
    unfold applyOps at h
    cases hop : applyOp r op with
    | none =>
      rw [hop] at h
      exact absurd h (by simp)
    | some res =>
      rw [hop] at h
      obtain ⟨hnd1, hmono, _⟩ := applyOp_score_facts r op res.1 res.2 hnd (by rw [hop])
      obtain ⟨s1, hs1, hle1⟩ := hmono pid s hs
      obtain ⟨s2, hs2, hle2⟩ := ih res.1 hnd1 r' h pid s1 hs1
      exact ⟨s2, hs2, Nat.le_trans hle1 hle2⟩

/-- C9: under the no-duplicate-players invariant, (i) across any trace of
operations (join/rejoin, prompt generation, game start, answer submission,
round-timer fire, delayed auto-advance, host next-round, disconnect) every
existing player's cumulative score never decreases; (ii) an operation that
does not finalize a round (`roundEnded` flipping false→true) leaves every
existing player's score unchanged, so scores change only through the
Scoring Engine run inside round finalization; (iii) a join with an already
listed `playerId` preserves the accumulated score (and a fresh join starts
at 0). -/
theorem scores_monotone_and_scoring_only (r : Room) (hnd : playersNodup r) :
    (∀ ops r', applyOps r ops = some r' →
      ∀ pid s, scoreOf r.players pid = some s →
        ∃ s', scoreOf r'.players pid = some s' ∧ s ≤ s') ∧
    (∀ op r' evs, applyOp r op = some (r', evs) →
      (r.roundEnded = true ∨ r'.roundEnded = false) →
      ∀ pid s s', scoreOf r.players pid = some s → scoreOf r'.players pid = some s' →
        s = s') ∧
    (∀ name pid sid ihb now,
      scoreOf (join_room r name pid sid ihb now).1.players pid
        = some ((scoreOf r.players pid).getD 0)) := by
  refine ⟨?_, ?_, ?_⟩
  · intro ops
    exact applyOps_monotone ops r hnd
  · intro op r' evs h hpre
    exact (applyOp_score_facts r op r' evs hnd h).2.2 hpre
  · intro name pid sid ihb now
    exact (join_room_score_facts r name pid sid ihb now hnd).2.1

/-- Witness for C9 at the concrete room `roomAB`. -/
theorem scores_monotone_and_scoring_only_witness :
    playersNodup roomAB ∧
    ((∀ ops r', applyOps roomAB ops = some r' →
      ∀ pid s, scoreOf roomAB.players pid = some s →
        ∃ s', scoreOf r'.players pid = some s' ∧ s ≤ s') ∧
    (∀ op r' evs, applyOp roomAB op = some (r', evs) →
      (roomAB.roundEnded = true ∨ r'.roundEnded = false) →
      ∀ pid s s', scoreOf roomAB.players pid = some s →
        scoreOf r'.players pid = some s' → s = s') ∧
    (∀ name pid sid ihb now,
      scoreOf (join_room roomAB name pid sid ihb now).1.players pid
        = some ((scoreOf roomAB.players pid).getD 0))) :=
  ⟨by unfold playersNodup; decide,
    scores_monotone_and_scoring_only roomAB (by unfold playersNodup; decide)⟩

end TeamShout
